import Mathlib

/-!
Shallow embedding of the dynamic RLN group manager of go-waku
(`waku/v2/protocol/rln/group_manager/dynamic`): the reconciliation
`handler`, the `InsertMembers` / `RemoveMembers` passes over the two
ordered block tables, and the `Start` / `Stop` lifecycle.

External collaborators (the zerokit tree, the Merkle root tracker, the
metadata store, the chain client, the keystore) are modelled as an
environment that decides whether each call succeeds; the manager's code
paths are translated statement by statement, and each run is recorded as
a trace of the calls the manager makes, in order.

Machine integers: `index` and `idCommitment` are `*big.Int` values read
from a uint256 contract field, so they are arbitrary naturals below
2^256; `blockNumber` is a Go `uint64`; Go `uint` and `int64` are 64-bit,
and the truncating conversions the source applies are made explicit.
-/

namespace GoWaku

/-- One `contracts.RLNMemberRegistered` event: `Index` and `IdCommitment`
are non-negative `big.Int`s, `Raw.BlockNumber` a uint64, `Raw.Removed`
the reorg flag. -/
structure RLNMemberRegistered where
  index : Nat
  idCommitment : Nat
  blockNumber : Nat
  removed : Bool
deriving DecidableEq

/-- Lookup in a wk8 `go-ordered-map`: an association list kept in key
insertion order. -/
def omGet {β : Type} : List (Nat × β) → Nat → Option β
  | [], _ => none
  | (k', v') :: rest, k => if k' = k then some v' else omGet rest k

/-- Update of a wk8 `go-ordered-map`: `Set` on a present key replaces the
value in place (keeping the key's position); a new key is appended. -/
def omSet {β : Type} : List (Nat × β) → Nat → β → List (Nat × β)
  | [], k, v => [(k, v)]
  | (k', v') :: rest, k, v =>
    if k' = k then (k, v) :: rest else (k', v') :: omSet rest k v

/-- Go `big.Int.Uint64()` on a non-negative value: the low 64 bits. -/
def bigIntUint64 (n : Nat) : Nat := n % 2 ^ 64

/-- Go `big.Int.Int64()` on a non-negative value: the low 64 bits read as
a two's-complement signed 64-bit integer. -/
def bigIntInt64 (n : Nat) : Int :=
  if n % 2 ^ 64 < 2 ^ 63 then ((n % 2 ^ 64 : Nat) : Int)
  else ((n % 2 ^ 64 : Nat) : Int) - 2 ^ 64

/-- Go conversion of an `int64` value to a 64-bit `uint` (two's
complement reinterpretation, i.e. reduction mod 2^64). -/
def goUint (i : Int) : Nat := (i % 2 ^ 64).toNat

/-- The start index `InsertMembers` hands to the tree:
`rln.MembershipIndex(uint(oldestIndexInBlock.Int64()))`. -/
def goStartIndex (n : Nat) : Nat := goUint (bigIntInt64 n)

/-- Whether a non-negative big integer is representable as an `int64`. -/
def fitsInInt64 (n : Nat) : Prop := n < 2 ^ 63

instance (n : Nat) : Decidable (fitsInInt64 n) := by
  unfold fitsInInt64; infer_instance

/-- `rln.BigIntToBytes32` applied to a commitment: the low 256 bits, kept
as a natural number standing for the 32-byte array. -/
def bigIntToBytes32 (n : Nat) : Nat := n % 2 ^ 256

/-- A call the group manager makes on its collaborators (the zerokit
tree, the root tracker, the metadata store). -/
inductive Op where
  | deleteMembers (memberIndexes : List Nat)
  | backfill (blockNumber : Nat)
  | insertMembers (startIndex : Nat) (idCommitments : List Nat)
  | updateLatestRoot (blockNumber : Nat)
  | setMetadata (lastProcessedBlock : Nat)
deriving DecidableEq

/-- The environment decides which calls succeed (`true`) and which return
an error (`false`); `Backfill` has no error return in the source, so its
entry is never consulted. -/
def Env : Type := Op → Bool

/-- Environment in which every collaborator call succeeds. -/
def envOK : Env := fun _ => true

/-- Calls made by `RemoveMembers`: `DeleteMembers` on the tree and
`Backfill` on the root tracker. -/
def Op.isRemoval : Op → Bool
  | .deleteMembers _ => true
  | .backfill _ => true
  | _ => false

/-- Calls made by `InsertMembers`: `InsertMembers` on the tree and
`UpdateLatestRoot` on the root tracker. -/
def Op.isInsertion : Op → Bool
  | .insertMembers _ _ => true
  | .updateLatestRoot _ => true
  | _ => false

/-- The calls with an error return that aborts the batch (`DeleteMembers`,
tree `InsertMembers`, `UpdateLatestRoot`); `SetMetadata` failure is only
logged and `Backfill` cannot fail. -/
def Op.isMutationCall : Op → Bool
  | .deleteMembers _ => true
  | .insertMembers _ _ => true
  | .updateLatestRoot _ => true
  | _ => false

/-- Body of the `RemoveMembers` iteration over one list of pairs. The
source walks the ordered map with `pair := toRemove.Newest(); pair =
pair.Prev()`; this loop receives the pairs already in that (reversed)
order. For each pair it calls `DeleteMembers` (returning its error on
failure) and then `Backfill`. The result is the trace of calls attempted
and the error, represented by the failing call, if any. -/
def removeLoop (env : Env) : List (Nat × List Nat) → List Op × Option Op
  | [] => ([], none)
  | (b, memberIndexes) :: rest =>
    if env (Op.deleteMembers memberIndexes) then
      let r := removeLoop env rest
      (Op.deleteMembers memberIndexes :: Op.backfill b :: r.1, r.2)
    else ([Op.deleteMembers memberIndexes], some (Op.deleteMembers memberIndexes))

/-- `DynamicGroupManager.RemoveMembers`: walks the removal table from
`Newest()` back to `Oldest()`, i.e. in reverse key-insertion order. -/
def RemoveMembers (env : Env) (toRemove : List (Nat × List Nat)) :
    List Op × Option Op :=
  removeLoop env toRemove.reverse

/-- Body of the `InsertMembers` iteration, walking pairs from `Oldest()`
forward. `oldestIndexInBlock` is the index of the first event of the
block group in arrival order (the source sets it only when still nil);
the commitment list keeps arrival order; empty groups are skipped; the
start index goes through `uint(oldestIndexInBlock.Int64())`; a failing
tree insert or `UpdateLatestRoot` aborts with that call's error. -/
def insertLoop (env : Env) : List (Nat × List RLNMemberRegistered) → List Op × Option Op
  | [] => ([], none)
  | (b, events) :: rest =>
    match events with
    | [] => insertLoop env rest
    | e0 :: _ =>
      let iOp := Op.insertMembers (goStartIndex e0.index)
        (events.map fun e => bigIntToBytes32 e.idCommitment)
      if env iOp then
        if env (Op.updateLatestRoot b) then
          let r := insertLoop env rest
          (iOp :: Op.updateLatestRoot b :: r.1, r.2)
        else ([iOp, Op.updateLatestRoot b], some (Op.updateLatestRoot b))
      else ([iOp], some iOp)

/-- `DynamicGroupManager.InsertMembers`: walks the insertion table from
`Oldest()` forward, i.e. in key-insertion order. -/
def InsertMembers (env : Env) (toInsert : List (Nat × List RLNMemberRegistered)) :
    List Op × Option Op :=
  insertLoop env toInsert

/-- The two per-block tables and the watermark candidate the `handler`
accumulates over the event batch. -/
structure Tables where
  toRemove : List (Nat × List Nat)
  toInsert : List (Nat × List RLNMemberRegistered)
  lastBlock : Nat
deriving DecidableEq

/-- One iteration of the `handler`'s `for _, event := range events` loop:
a removed event appends `uint(event.Index.Uint64())` to its block's
removal group; a live event appends the event to its block's insertion
group and raises the watermark candidate when its block is higher. -/
def tableStep (t : Tables) (event : RLNMemberRegistered) : Tables :=
  if event.removed then
    let indexes := (omGet t.toRemove event.blockNumber).getD []
    let removeTable := omSet t.toRemove event.blockNumber (indexes ++ [bigIntUint64 event.index])
    { t with toRemove := removeTable }
  else
    let eventsPerBlock := (omGet t.toInsert event.blockNumber).getD []
    let insertTable := omSet t.toInsert event.blockNumber (eventsPerBlock ++ [event])
    let t1 := { t with toInsert := insertTable }
    if event.blockNumber > t1.lastBlock then
      { t1 with lastBlock := event.blockNumber }
    else t1

/-- The table-building pass of the `handler`, starting from the current
`gm.lastBlockProcessed`. -/
def buildTables (lastBlockProcessed : Nat) (events : List RLNMemberRegistered) : Tables :=
  events.foldl tableStep
    { toRemove := [], toInsert := [], lastBlock := lastBlockProcessed }

/-- Result of one `handler` run: the calls made, the returned error (the
failing call, if any) and the resulting `gm.lastBlockProcessed`. -/
structure HandlerResult where
  trace : List Op
  error : Option Op
  lastBlockProcessed : Nat
deriving DecidableEq

/-- The reconciliation `handler`: build the two tables, apply
`RemoveMembers` then `InsertMembers` (each aborting the batch on error,
leaving the watermark untouched), then set `gm.lastBlockProcessed` and
attempt `SetMetadata`, whose failure is only logged. -/
def handler (env : Env) (lastBlockProcessed : Nat)
    (events : List RLNMemberRegistered) : HandlerResult :=
  let t := buildTables lastBlockProcessed events
  let r := RemoveMembers env t.toRemove
  match r.2 with
  | some e => ⟨r.1, some e, lastBlockProcessed⟩
  | none =>
    let i := InsertMembers env t.toInsert
    match i.2 with
    | some e => ⟨r.1 ++ i.1, some e, lastBlockProcessed⟩
    | none => ⟨r.1 ++ i.1 ++ [Op.setMetadata t.lastBlock], none, t.lastBlock⟩

/-- The watermark value the `handler` computes: the old watermark maxed
with the block numbers of the batch's non-removed events. -/
def watermarkCandidate (lastBlockProcessed : Nat)
    (events : List RLNMemberRegistered) : Nat :=
  ((events.filter fun e => !e.removed).map RLNMemberRegistered.blockNumber).foldl
    max lastBlockProcessed

/-- Block numbers of the `Backfill` calls of a trace, in call order. -/
def backfillBlocks (trace : List Op) : List Nat :=
  trace.filterMap fun op =>
    match op with
    | Op.backfill b => some b
    | _ => none

/-- Block numbers of the `UpdateLatestRoot` calls of a trace, in call
order. -/
def updateRootBlocks (trace : List Op) : List Nat :=
  trace.filterMap fun op =>
    match op with
    | Op.updateLatestRoot b => some b
    | _ => none

/-- The trace `RemoveMembers` produces when every call succeeds: per
pair, `DeleteMembers` on the group's indices then `Backfill` on its
block. -/
def removalTraceSpec : List (Nat × List Nat) → List Op
  | [] => []
  | (b, memberIndexes) :: rest =>
    Op.deleteMembers memberIndexes :: Op.backfill b :: removalTraceSpec rest

/-- The trace `InsertMembers` produces when every call succeeds: per
nonempty pair, a tree insert at the truncated first-arrival index with
the arrival-order commitments, then `UpdateLatestRoot` on the block. -/
def insertTraceSpec : List (Nat × List RLNMemberRegistered) → List Op
  | [] => []
  | (b, events) :: rest =>
    match events with
    | [] => insertTraceSpec rest
    | e0 :: _ =>
      Op.insertMembers (goStartIndex e0.index)
          (events.map fun e => bigIntToBytes32 e.idCommitment) ::
        Op.updateLatestRoot b :: insertTraceSpec rest

/-- One membership group entry of a keystore credential, carrying the
tree position. -/
structure MembershipGroup where
  treeIndex : Nat
deriving DecidableEq

/-- One keystore entry: an identity credential (kept opaque) and its
membership groups. -/
structure MembershipCredentials where
  identityCredential : Nat
  membershipGroups : List MembershipGroup
deriving DecidableEq

/-- The error `Start` returns, one constructor per `return` path of the
source. -/
inductive StartError where
  | alreadyStarted
  | dialFailed
  | chainIDFailed
  | contractBindFailed
  | feeProbeFailed
  | credentialsLoadFailed
  | invalidKeystoreIndex
  | invalidMembershipGroupIndex
  | noCredentialsAvailable
  | handleGroupUpdatesFailed
deriving DecidableEq

/-- The mutable fields of `DynamicGroupManager` that `Start`, `Stop` and
the configuration touch. `cancel` models whether `gm.cancel` is non-nil;
handles received from outside (`ethClient`, `rln`, `rootTracker`,
`rlnContract`) are modelled as set/unset flags. -/
structure DynamicGroupManager where
  cancel : Bool
  ethClientSet : Bool
  rlnSet : Bool
  rootTrackerSet : Bool
  chainId : Option Nat
  rlnContractSet : Bool
  identityCredential : Option Nat
  membershipIndex : Option Nat
  membershipGroupIndex : Nat
  keystorePath : String
  keystorePassword : String
  keystoreIndex : Nat
deriving DecidableEq

/-- Outcomes of the external calls `Start` makes: the chain dial, the
`ChainID` query, the contract binding, the membership-fee probe, the
keystore read, and `HandleGroupUpdates`. `none` / `false` means the call
errors. -/
structure StartEnv where
  dialOK : Bool
  chainID : Option Nat
  contractBindOK : Bool
  membershipFee : Option Nat
  credentials : Option (List MembershipCredentials)
  handleGroupUpdatesOK : Bool

/-- The keystore block of `Start`: runs only when no credential is held
yet and both path and password are non-empty; an empty credential list
falls through; an out-of-range keystore index or membership group index
errors, the identity credential being assigned before the group index is
checked. -/
def loadCredentials (env : StartEnv) (gm : DynamicGroupManager) :
    Option StartError × DynamicGroupManager :=
  if gm.identityCredential = none ∧ gm.keystorePassword ≠ "" ∧ gm.keystorePath ≠ "" then
    match env.credentials with
    | none => (some StartError.credentialsLoadFailed, gm)
    | some credentials =>
      if credentials.isEmpty then (none, gm)
      else
        match credentials.get? gm.keystoreIndex with
        | none => (some StartError.invalidKeystoreIndex, gm)
        | some credential =>
          match credential.membershipGroups.get? gm.membershipGroupIndex with
          | none =>
            (some StartError.invalidMembershipGroupIndex,
              { gm with identityCredential := some credential.identityCredential })
          | some g =>
            (none,
              { gm with
                identityCredential := some credential.identityCredential,
                membershipIndex := some g.treeIndex })
  else (none, gm)

/-- The part of `Start` after the already-started guard and after
`gm.cancel` has been assigned: dial the chain, record the handles, query
the chain id, bind the registry contract, probe the membership fee, load
credentials, require a credential/index pair, and start
`HandleGroupUpdates`; every error path returns with the mutations made
so far kept. -/
def startBody (env : StartEnv) (gm : DynamicGroupManager) :
    Option StartError × DynamicGroupManager :=
  if !env.dialOK then (some StartError.dialFailed, gm)
  else
    let gm1 := { gm with ethClientSet := true, rlnSet := true, rootTrackerSet := true }
    match env.chainID with
    | none => (some StartError.chainIDFailed, gm1)
    | some cid =>
      let gm2 := { gm1 with chainId := some cid }
      if !env.contractBindOK then (some StartError.contractBindFailed, gm2)
      else
        let gm3 := { gm2 with rlnContractSet := true }
        match env.membershipFee with
        | none => (some StartError.feeProbeFailed, gm3)
        | some _ =>
          let lc := loadCredentials env gm3
          match lc.1 with
          | some e => (some e, lc.2)
          | none =>
            if lc.2.identityCredential = none ∨ lc.2.membershipIndex = none then
              (some StartError.noCredentialsAvailable, lc.2)
            else if !env.handleGroupUpdatesOK then
              (some StartError.handleGroupUpdatesFailed, lc.2)
            else (none, lc.2)

/-- `DynamicGroupManager.Start`: rejected with "already started" when
`gm.cancel` is already non-nil (state untouched); otherwise `gm.cancel`
is assigned before any fallible step, and the body runs. -/
def Start (env : StartEnv) (gm : DynamicGroupManager) :
    Option StartError × DynamicGroupManager :=
  if gm.cancel then (some StartError.alreadyStarted, gm)
  else startBody env { gm with cancel := true }

/-- The calls `Stop` can make, in source order: `gm.cancel()`,
`gm.rln.Flush()`, `gm.ethClient.Close()`, `gm.wg.Wait()`. -/
inductive StopOp where
  | cancelCall
  | flush
  | closeClient
  | wgWait
deriving DecidableEq

/-- The error `Stop` returns: the flush error is the only one. -/
inductive StopError where
  | flushFailed
deriving DecidableEq

/-- `DynamicGroupManager.Stop`: a no-op when `Start` never ran
(`gm.cancel` nil); otherwise cancels, flushes the tree — returning the
flush error immediately on failure — and only then closes the chain
client and waits for the background work. The result carries the error
and the trace of calls made. -/
def Stop (flushOK : Bool) (gm : DynamicGroupManager) :
    Option StopError × List StopOp :=
  if !gm.cancel then (none, [])
  else if !flushOK then (some StopError.flushFailed, [StopOp.cancelCall, StopOp.flush])
  else (none, [StopOp.cancelCall, StopOp.flush, StopOp.closeClient, StopOp.wgWait])

/-- Sample block group whose events arrive in increasing index order. -/
def sortedGroup100 : List RLNMemberRegistered :=
  [⟨7, 1, 100, false⟩, ⟨8, 2, 100, false⟩]

/-- Sample one-block insertion table built from `sortedGroup100`. -/
def sortedTable100 : List (Nat × List RLNMemberRegistered) :=
  [(100, sortedGroup100)]

/-- Sample removal table whose blocks were first seen in increasing
order. -/
def removalTable3 : List (Nat × List Nat) :=
  [(100, [1]), (105, [2]), (110, [3])]

/-- Sample insertion table whose blocks were first seen in increasing
order. -/
def insertTableSorted : List (Nat × List RLNMemberRegistered) :=
  [(100, [⟨0, 5, 100, false⟩]), (105, [⟨1, 6, 105, false⟩])]

/-- Sample batch holding a single reorg-removal event. -/
def removalOnlyBatch : List RLNMemberRegistered := [⟨1, 0, 50, true⟩]

/-- Environment in which every `DeleteMembers` call fails and everything
else succeeds. -/
def envFailDelete : Env := fun op =>
  match op with
  | Op.deleteMembers _ => false
  | _ => true

/-- Environment in which every `SetMetadata` call fails and everything
else succeeds. -/
def envFailMeta : Env := fun op =>
  match op with
  | Op.setMetadata _ => false
  | _ => true

/-- Sample batch holding a single registration event. -/
def insertBatch50 : List RLNMemberRegistered := [⟨0, 4, 50, false⟩]

/-- A configured, not-yet-started group manager. -/
def gmConfigured : DynamicGroupManager :=
  ⟨false, false, false, false, none, false, none, none, 0, "keystore.json", "password", 0⟩

/-- A group manager on which `Start` has set the cancellation token. -/
def gmStarted : DynamicGroupManager := { gmConfigured with cancel := true }

/-- A `Start` environment whose chain dial fails. -/
def startEnvDialFail : StartEnv := ⟨false, none, false, none, none, false⟩

/-- A `Start` environment in which every external call succeeds and the
keystore holds one usable credential. -/
def startEnvAllOK : StartEnv := ⟨true, some 1, true, some 5, some [⟨7, [⟨3⟩]⟩], true⟩

theorem goStartIndex_mod (n : Nat) : goStartIndex n = n % 2 ^ 64 := by
  unfold goStartIndex bigIntInt64 goUint
  split <;> omega

theorem removeLoop_envOK (pairs : List (Nat × List Nat)) :
    removeLoop envOK pairs = (removalTraceSpec pairs, none) := by
  induction pairs with
  | nil => rfl
  | cons p rest ih =>
    obtain ⟨b, memberIndexes⟩ := p
    simp [removeLoop, removalTraceSpec, envOK, ih]

theorem insertLoop_envOK (pairs : List (Nat × List RLNMemberRegistered)) :
    insertLoop envOK pairs = (insertTraceSpec pairs, none) := by
  induction pairs with
  | nil => rfl
  | cons p rest ih =>
    obtain ⟨b, events⟩ := p
    cases events with
    | nil => simpa [insertLoop, insertTraceSpec] using ih
    | cons e0 es => simp [insertLoop, insertTraceSpec, envOK, ih]

theorem backfillBlocks_removalTraceSpec (pairs : List (Nat × List Nat)) :
    backfillBlocks (removalTraceSpec pairs) = pairs.map Prod.fst := by
  induction pairs with
  | nil => rfl
  | cons p rest ih =>
    obtain ⟨b, memberIndexes⟩ := p
    simp [removalTraceSpec, backfillBlocks, List.filterMap_cons] at *
    exact ih

theorem updateRootBlocks_insertTraceSpec (pairs : List (Nat × List RLNMemberRegistered)) :
    updateRootBlocks (insertTraceSpec pairs) =
      (pairs.filter fun p => !p.2.isEmpty).map Prod.fst := by
  induction pairs with
  | nil => rfl
  | cons p rest ih =>
    obtain ⟨b, events⟩ := p
    cases events with
    | nil => simpa [insertTraceSpec, List.filter_cons] using ih
    | cons e0 es =>
      simp [insertTraceSpec, updateRootBlocks, List.filterMap_cons, List.filter_cons] at *
      exact ih

theorem mem_insertTraceSpec (pairs : List (Nat × List RLNMemberRegistered))
    (b : Nat) (e0 : RLNMemberRegistered) (rest : List RLNMemberRegistered)
    (h : (b, e0 :: rest) ∈ pairs) :
    Op.insertMembers (goStartIndex e0.index)
        ((e0 :: rest).map fun e => bigIntToBytes32 e.idCommitment) ∈
      insertTraceSpec pairs := by
  induction pairs with
  | nil => cases h
  | cons p tail ih =>
    rcases List.mem_cons.mp h with heq | hmem
    · rw [← heq]
      simp [insertTraceSpec]
    · obtain ⟨b', events'⟩ := p
      cases events' with
      | nil => simpa [insertTraceSpec] using ih hmem
      | cons f fs =>
        simp only [insertTraceSpec, List.mem_cons]
        right; right
        exact ih hmem

theorem removeLoop_trace_isRemoval (env : Env) (pairs : List (Nat × List Nat)) :
    ∀ op ∈ (removeLoop env pairs).1, op.isRemoval = true := by
  induction pairs with
  | nil => intro op h; cases h
  | cons p rest ih =>
    obtain ⟨b, memberIndexes⟩ := p
    intro op h
    by_cases he : env (Op.deleteMembers memberIndexes) <;> simp [removeLoop, he] at h
    · rcases h with h | h | h
      · rw [h]; rfl
      · rw [h]; rfl
      · exact ih op h
    · rw [h]; rfl

theorem insertLoop_trace_isInsertion (env : Env) (pairs : List (Nat × List RLNMemberRegistered)) :
    ∀ op ∈ (insertLoop env pairs).1, op.isInsertion = true := by
  induction pairs with
  | nil => intro op h; cases h
  | cons p rest ih =>
    obtain ⟨b, events⟩ := p
    intro op h
    cases events with
    | nil =>
      simp only [insertLoop] at h
      exact ih op h
    | cons e0 es =>
      simp only [insertLoop] at h
      by_cases hi : env (Op.insertMembers (goStartIndex e0.index)
          ((e0 :: es).map fun e => bigIntToBytes32 e.idCommitment)) = true
      · rw [if_pos hi] at h
        by_cases hu : env (Op.updateLatestRoot b) = true
        · rw [if_pos hu] at h
          simp only [List.mem_cons] at h
          rcases h with h | h | h
          · rw [h]; rfl
          · rw [h]; rfl
          · exact ih op h
        · rw [if_neg hu] at h
          simp only [List.mem_cons] at h
          rcases h with h | h | h
          · rw [h]; rfl
          · rw [h]; rfl
          · cases h
      · rw [if_neg hi] at h
        simp only [List.mem_cons] at h
        rcases h with h | h
        · rw [h]; rfl
        · cases h

theorem removeLoop_error_spec (env : Env) (pairs : List (Nat × List Nat)) (op : Op)
    (h : (removeLoop env pairs).2 = some op) :
    env op = false ∧ op.isMutationCall = true := by
  induction pairs with
  | nil => cases h
  | cons p rest ih =>
    obtain ⟨b, memberIndexes⟩ := p
    by_cases he : env (Op.deleteMembers memberIndexes) <;> simp [removeLoop, he] at h
    · exact ih h
    · rw [← h]
      exact ⟨by simpa using he, rfl⟩

theorem insertLoop_error_spec (env : Env) (pairs : List (Nat × List RLNMemberRegistered)) (op : Op)
    (h : (insertLoop env pairs).2 = some op) :
    env op = false ∧ op.isMutationCall = true := by
  induction pairs with
  | nil => cases h
  | cons p rest ih =>
    obtain ⟨b, events⟩ := p
    cases events with
    | nil =>
      simp only [insertLoop] at h
      exact ih h
    | cons e0 es =>
      simp only [insertLoop] at h
      by_cases hi : env (Op.insertMembers (goStartIndex e0.index)
          ((e0 :: es).map fun e => bigIntToBytes32 e.idCommitment)) = true
      · rw [if_pos hi] at h
        by_cases hu : env (Op.updateLatestRoot b) = true
        · rw [if_pos hu] at h
          exact ih h
        · rw [if_neg hu] at h
          simp only [Option.some.injEq] at h
          rw [← h]
          exact ⟨by simpa using hu, rfl⟩
      · rw [if_neg hi] at h
        simp only [Option.some.injEq] at h
        rw [← h]
        exact ⟨by simpa using hi, rfl⟩

theorem removeLoop_env_of_none (env : Env) (pairs : List (Nat × List Nat))
    (h : (removeLoop env pairs).2 = none) :
    ∀ op ∈ (removeLoop env pairs).1, op.isMutationCall = true → env op = true := by
  induction pairs with
  | nil => intro op hm; cases hm
  | cons p rest ih =>
    obtain ⟨b, memberIndexes⟩ := p
    simp only [removeLoop] at h ⊢
    by_cases he : env (Op.deleteMembers memberIndexes) = true
    · rw [if_pos he] at h ⊢
      intro op hm
      simp only [List.mem_cons] at hm
      rcases hm with hm | hm | hm
      · rw [hm]; intro _; exact he
      · rw [hm]; intro hc; exact Bool.noConfusion hc
      · exact ih h op hm
    · rw [if_neg he] at h
      exact Option.noConfusion h

theorem insertLoop_env_of_none (env : Env) (pairs : List (Nat × List RLNMemberRegistered))
    (h : (insertLoop env pairs).2 = none) :
    ∀ op ∈ (insertLoop env pairs).1, op.isMutationCall = true → env op = true := by
  induction pairs with
  | nil => intro op hm; cases hm
  | cons p rest ih =>
    obtain ⟨b, events⟩ := p
    cases events with
    | nil =>
      simp only [insertLoop] at h ⊢
      exact ih h
    | cons e0 es =>
      simp only [insertLoop] at h ⊢
      by_cases hi : env (Op.insertMembers (goStartIndex e0.index)
          ((e0 :: es).map fun e => bigIntToBytes32 e.idCommitment)) = true
      · rw [if_pos hi] at h ⊢
        by_cases hu : env (Op.updateLatestRoot b) = true
        · rw [if_pos hu] at h ⊢
          intro op hm
          simp only [List.mem_cons] at hm
          rcases hm with hm | hm | hm
          · rw [hm]; intro _; exact hi
          · rw [hm]; intro _; exact hu
          · exact ih h op hm
        · rw [if_neg hu] at h
          exact Option.noConfusion h
      · rw [if_neg hi] at h
        exact Option.noConfusion h

theorem removeLoop_none_of_deleteOK (env : Env) (pairs : List (Nat × List Nat))
    (hdel : ∀ memberIndexes, env (Op.deleteMembers memberIndexes) = true) :
    (removeLoop env pairs).2 = none := by
  induction pairs with
  | nil => rfl
  | cons p rest ih =>
    obtain ⟨b, memberIndexes⟩ := p
    simp [removeLoop, hdel memberIndexes, ih]

theorem insertLoop_none_of_OK (env : Env) (pairs : List (Nat × List RLNMemberRegistered))
    (hins : ∀ s cs, env (Op.insertMembers s cs) = true)
    (hupd : ∀ b, env (Op.updateLatestRoot b) = true) :
    (insertLoop env pairs).2 = none := by
  induction pairs with
  | nil => rfl
  | cons p rest ih =>
    obtain ⟨b, events⟩ := p
    cases events with
    | nil => simpa [insertLoop] using ih
    | cons e0 es => simp [insertLoop, hins, hupd, ih]

theorem tableStep_lastBlock (t : Tables) (e : RLNMemberRegistered) :
    (tableStep t e).lastBlock =
      if e.removed then t.lastBlock else max t.lastBlock e.blockNumber := by
  unfold tableStep
  by_cases hrem : e.removed <;> simp [hrem]
  split <;> simp_all <;> omega

theorem foldl_tableStep_lastBlock (events : List RLNMemberRegistered) :
    ∀ t : Tables, (events.foldl tableStep t).lastBlock =
      ((events.filter fun e => !e.removed).map RLNMemberRegistered.blockNumber).foldl
        max t.lastBlock := by
  induction events with
  | nil => intro t; rfl
  | cons e rest ih =>
    intro t
    rw [List.foldl_cons, ih (tableStep t e), tableStep_lastBlock]
    by_cases hrem : e.removed <;> simp [List.filter_cons, hrem]

theorem buildTables_lastBlock (lastBlockProcessed : Nat) (events : List RLNMemberRegistered) :
    (buildTables lastBlockProcessed events).lastBlock =
      watermarkCandidate lastBlockProcessed events := by
  unfold buildTables watermarkCandidate
  exact foldl_tableStep_lastBlock events _

theorem le_foldl_max (l : List Nat) : ∀ a : Nat, a ≤ l.foldl max a := by
  induction l with
  | nil => intro a; exact Nat.le_refl a
  | cons x xs ih => intro a; exact Nat.le_trans (Nat.le_max_left a x) (ih (max a x))

theorem le_watermarkCandidate (lastBlockProcessed : Nat) (events : List RLNMemberRegistered) :
    lastBlockProcessed ≤ watermarkCandidate lastBlockProcessed events :=
  le_foldl_max _ _

theorem handler_eq_of_removeFail (env : Env) (st : Nat) (events : List RLNMemberRegistered)
    (e : Op) (hr : (RemoveMembers env (buildTables st events).toRemove).2 = some e) :
    handler env st events =
      ⟨(RemoveMembers env (buildTables st events).toRemove).1, some e, st⟩ := by
  simp only [handler, hr]

theorem handler_eq_of_insertFail (env : Env) (st : Nat) (events : List RLNMemberRegistered)
    (e : Op) (hr : (RemoveMembers env (buildTables st events).toRemove).2 = none)
    (hi : (InsertMembers env (buildTables st events).toInsert).2 = some e) :
    handler env st events =
      ⟨(RemoveMembers env (buildTables st events).toRemove).1 ++
          (InsertMembers env (buildTables st events).toInsert).1,
        some e, st⟩ := by
  simp only [handler, hr, hi]

theorem handler_eq_of_ok (env : Env) (st : Nat) (events : List RLNMemberRegistered)
    (hr : (RemoveMembers env (buildTables st events).toRemove).2 = none)
    (hi : (InsertMembers env (buildTables st events).toInsert).2 = none) :
    handler env st events =
      ⟨(RemoveMembers env (buildTables st events).toRemove).1 ++
          (InsertMembers env (buildTables st events).toInsert).1 ++
          [Op.setMetadata (buildTables st events).lastBlock],
        none, (buildTables st events).lastBlock⟩ := by
  simp only [handler, hr, hi]

theorem loadCredentials_cancel (env : StartEnv) (gm : DynamicGroupManager) :
    ((loadCredentials env gm).2).cancel = gm.cancel := by
  unfold loadCredentials
  repeat' split
  all_goals rfl

theorem startBody_cancel (env : StartEnv) (gm : DynamicGroupManager) :
    ((startBody env gm).2).cancel = gm.cancel := by
  unfold startBody
  dsimp only
  repeat' split
  all_goals first
    | rfl
    | exact loadCredentials_cancel env _

theorem Start_alreadyStarted (env : StartEnv) (gm : DynamicGroupManager)
    (hc : gm.cancel = true) :
    Start env gm = (some StartError.alreadyStarted, gm) := by
  simp [Start, hc]

/-- C1 counterexample: one block with events at indices 7, 8, 9 whose
arrival order is 8, 7, 9 is inserted with start index 8 — the index of
the first-arriving event — and not with the minimum index 7: the handler
never issues a tree insert at start index 7. -/
theorem InsertMembers_startIndex_not_min_counterexample :
    (handler envOK 0
        [⟨8, 2, 100, false⟩, ⟨7, 1, 100, false⟩, ⟨9, 3, 100, false⟩]).trace =
      [Op.insertMembers 8 [2, 1, 3], Op.updateLatestRoot 100, Op.setMetadata 100]
    ∧ Op.insertMembers 7 [2, 1, 3] ∉
      (handler envOK 0
        [⟨8, 2, 100, false⟩, ⟨7, 1, 100, false⟩, ⟨9, 3, 100, false⟩]).trace :=
  ⟨by decide, by decide⟩

/-- C1 (amended): for every insertion block group processed by
`InsertMembers`, the start index handed to the accumulator is the
64-bit truncation of the index of the block's first-arriving event (the
commitments keeping arrival order); when the group's events arrive in
non-decreasing index order that first index is the minimum index of the
block, and when it is below 2^64 the truncation is the identity. -/
theorem InsertMembers_startIndex_of_first_arrival
    (toInsert : List (Nat × List RLNMemberRegistered)) (b : Nat)
    (e0 : RLNMemberRegistered) (rest : List RLNMemberRegistered)
    (h : (b, e0 :: rest) ∈ toInsert) :
    Op.insertMembers (goStartIndex e0.index)
        ((e0 :: rest).map fun e => bigIntToBytes32 e.idCommitment) ∈
      (InsertMembers envOK toInsert).1
    ∧ (((e0 :: rest).map RLNMemberRegistered.index).Pairwise (· ≤ ·) →
        ∀ e ∈ e0 :: rest, e0.index ≤ e.index)
    ∧ (e0.index < 2 ^ 64 → goStartIndex e0.index = e0.index) := by
  refine ⟨?_, ?_, ?_⟩
  · unfold InsertMembers
    rw [insertLoop_envOK]
    exact mem_insertTraceSpec toInsert b e0 rest h
  · intro hp e he
    rw [List.map_cons] at hp
    rcases List.mem_cons.mp he with heq | hmem
    · rw [heq]
    · exact (List.pairwise_cons.mp hp).1 e.index
        (List.mem_map_of_mem RLNMemberRegistered.index hmem)
  · intro hlt
    rw [goStartIndex_mod, Nat.mod_eq_of_lt hlt]

/-- C1 witness: on the one-block table whose events arrive index-sorted,
the emitted tree insert starts at the first (and minimum) index 7. -/
theorem InsertMembers_startIndex_of_first_arrival_witness :
    (100, (⟨7, 1, 100, false⟩ : RLNMemberRegistered) ::
        [(⟨8, 2, 100, false⟩ : RLNMemberRegistered)]) ∈ sortedTable100
    ∧ Op.insertMembers (goStartIndex (⟨7, 1, 100, false⟩ : RLNMemberRegistered).index)
        (((⟨7, 1, 100, false⟩ : RLNMemberRegistered) ::
            [(⟨8, 2, 100, false⟩ : RLNMemberRegistered)]).map
          fun e => bigIntToBytes32 e.idCommitment) ∈
        (InsertMembers envOK sortedTable100).1
    ∧ (⟨7, 1, 100, false⟩ : RLNMemberRegistered).index ≤
        (⟨8, 2, 100, false⟩ : RLNMemberRegistered).index
    ∧ goStartIndex (⟨7, 1, 100, false⟩ : RLNMemberRegistered).index =
        (⟨7, 1, 100, false⟩ : RLNMemberRegistered).index := by
  have h := InsertMembers_startIndex_of_first_arrival sortedTable100 100
    ⟨7, 1, 100, false⟩ [⟨8, 2, 100, false⟩] (by decide)
  exact ⟨by decide, h.1, h.2.1 (by decide) ⟨8, 2, 100, false⟩ (by decide), h.2.2 (by decide)⟩

/-- C2 counterexample: a batch whose removal events arrive for blocks
105, 100, 110 produces `Backfill` calls in the order 110, 100, 105 —
reverse arrival order of the blocks — which is not strictly decreasing
block-number order. -/
theorem RemoveMembers_block_order_counterexample :
    backfillBlocks (handler envOK 0
        [⟨1, 0, 105, true⟩, ⟨2, 0, 100, true⟩, ⟨3, 0, 110, true⟩]).trace =
      [110, 100, 105]
    ∧ ¬ (backfillBlocks (handler envOK 0
        [⟨1, 0, 105, true⟩, ⟨2, 0, 100, true⟩, ⟨3, 0, 110, true⟩]).trace).Pairwise
          (· > ·) :=
  ⟨by decide, by decide⟩

/-- C2 (amended): `RemoveMembers` processes the removal block groups in
reverse order of the blocks' first appearance in the batch, for each
block first deleting all the group's member indices and then calling
`Backfill(blockNumber)`; when the removal blocks first appear in
increasing block-number order, the `Backfill` calls are therefore in
strictly decreasing block-number order. -/
theorem RemoveMembers_newest_arrival_first (toRemove : List (Nat × List Nat)) :
    (RemoveMembers envOK toRemove).1 = removalTraceSpec toRemove.reverse
    ∧ ((toRemove.map Prod.fst).Pairwise (· < ·) →
        (backfillBlocks (RemoveMembers envOK toRemove).1).Pairwise (· > ·)) := by
  have h1 : (RemoveMembers envOK toRemove).1 = removalTraceSpec toRemove.reverse := by
    unfold RemoveMembers
    rw [removeLoop_envOK]
  refine ⟨h1, fun hp => ?_⟩
  rw [h1, backfillBlocks_removalTraceSpec, List.map_reverse]
  exact List.pairwise_reverse.mpr hp

/-- C2 witness: on a removal table whose blocks were first seen in order
100, 105, 110, the trace is delete-then-backfill per block walked newest
first, and the `Backfill` blocks are strictly decreasing. -/
theorem RemoveMembers_newest_arrival_first_witness :
    (removalTable3.map Prod.fst).Pairwise (· < ·)
    ∧ (RemoveMembers envOK removalTable3).1 = removalTraceSpec removalTable3.reverse
    ∧ (backfillBlocks (RemoveMembers envOK removalTable3).1).Pairwise (· > ·) :=
  ⟨by decide, (RemoveMembers_newest_arrival_first removalTable3).1,
    (RemoveMembers_newest_arrival_first removalTable3).2 (by decide)⟩

/-- C3 counterexample: a batch whose insertion events arrive for block
105 before block 100 produces `UpdateLatestRoot` calls in the order
105, 100 — the blocks' first-arrival order — which is not strictly
increasing block-number order. -/
theorem InsertMembers_block_order_counterexample :
    updateRootBlocks (handler envOK 0
        [⟨0, 10, 105, false⟩, ⟨1, 11, 100, false⟩]).trace = [105, 100]
    ∧ ¬ (updateRootBlocks (handler envOK 0
        [⟨0, 10, 105, false⟩, ⟨1, 11, 100, false⟩]).trace).Pairwise (· < ·) :=
  ⟨by decide, by decide⟩

/-- C3 (amended): `InsertMembers` processes the insertion block groups
in the order the blocks first appeared in the batch, calling
`UpdateLatestRoot` exactly once per block with a nonempty group, after
that block's commitments were inserted; when the insertion blocks first
appear in increasing block-number order, the `UpdateLatestRoot` calls
are therefore in strictly increasing block-number order. -/
theorem InsertMembers_oldest_arrival_first (toInsert : List (Nat × List RLNMemberRegistered)) :
    updateRootBlocks (InsertMembers envOK toInsert).1 =
      (toInsert.filter fun p => !p.2.isEmpty).map Prod.fst
    ∧ ((toInsert.map Prod.fst).Pairwise (· < ·) →
        (updateRootBlocks (InsertMembers envOK toInsert).1).Pairwise (· < ·)) := by
  have h1 : updateRootBlocks (InsertMembers envOK toInsert).1 =
      (toInsert.filter fun p => !p.2.isEmpty).map Prod.fst := by
    unfold InsertMembers
    rw [insertLoop_envOK]
    exact updateRootBlocks_insertTraceSpec toInsert
  refine ⟨h1, fun hp => ?_⟩
  rw [h1]
  exact List.Pairwise.sublist
    (List.Sublist.map Prod.fst (List.filter_sublist toInsert)) hp

/-- C3 witness: on an insertion table whose blocks were first seen in
order 100, 105, the `UpdateLatestRoot` calls are exactly those blocks in
strictly increasing order. -/
theorem InsertMembers_oldest_arrival_first_witness :
    (insertTableSorted.map Prod.fst).Pairwise (· < ·)
    ∧ updateRootBlocks (InsertMembers envOK insertTableSorted).1 =
        (insertTableSorted.filter fun p => !p.2.isEmpty).map Prod.fst
    ∧ (updateRootBlocks (InsertMembers envOK insertTableSorted).1).Pairwise (· < ·) :=
  ⟨by decide, (InsertMembers_oldest_arrival_first insertTableSorted).1,
    (InsertMembers_oldest_arrival_first insertTableSorted).2 (by decide)⟩

/-- C4: in every run of the reconciliation `handler`, the trace of calls
splits as removal calls (`DeleteMembers`, `Backfill`), then insertion
calls (tree `InsertMembers`, `UpdateLatestRoot`), then at most the
`SetMetadata` call: every removal of the batch is applied before any
insertion of the batch. -/
theorem handler_removals_before_insertions (env : Env) (st : Nat)
    (events : List RLNMemberRegistered) :
    ∃ r i m, (handler env st events).trace = r ++ i ++ m
      ∧ (∀ op ∈ r, op.isRemoval = true)
      ∧ (∀ op ∈ i, op.isInsertion = true)
      ∧ (∀ op ∈ m, ∃ n, op = Op.setMetadata n) := by
  rcases hr : (RemoveMembers env (buildTables st events).toRemove).2 with _ | e
  · rcases hi : (InsertMembers env (buildTables st events).toInsert).2 with _ | e
    · refine ⟨(RemoveMembers env (buildTables st events).toRemove).1,
        (InsertMembers env (buildTables st events).toInsert).1,
        [Op.setMetadata (buildTables st events).lastBlock], ?_, ?_, ?_, ?_⟩
      · rw [handler_eq_of_ok env st events hr hi]
      · exact removeLoop_trace_isRemoval env _
      · exact insertLoop_trace_isInsertion env _
      · intro op hop
        rw [List.mem_singleton.mp hop]
        exact ⟨(buildTables st events).lastBlock, rfl⟩
    · refine ⟨(RemoveMembers env (buildTables st events).toRemove).1,
        (InsertMembers env (buildTables st events).toInsert).1, [], ?_, ?_, ?_, ?_⟩
      · rw [handler_eq_of_insertFail env st events e hr hi, List.append_nil]
      · exact removeLoop_trace_isRemoval env _
      · exact insertLoop_trace_isInsertion env _
      · intro op hop; cases hop
  · refine ⟨(RemoveMembers env (buildTables st events).toRemove).1, [], [], ?_, ?_, ?_, ?_⟩
    · rw [handler_eq_of_removeFail env st events e hr, List.append_nil, List.append_nil]
    · exact removeLoop_trace_isRemoval env _
    · intro op hop; cases hop
    · intro op hop; cases hop

/-- C5: when the `handler` returns no error, the new
`lastBlockProcessed` is the old one maxed with the block numbers of the
batch's non-removed events; in particular it never decreases, and a
batch with only removal events leaves it unchanged. -/
theorem handler_watermark_monotone (env : Env) (st : Nat)
    (events : List RLNMemberRegistered)
    (h : (handler env st events).error = none) :
    (handler env st events).lastBlockProcessed = watermarkCandidate st events
    ∧ st ≤ (handler env st events).lastBlockProcessed
    ∧ ((events.filter fun e => !e.removed) = [] →
        (handler env st events).lastBlockProcessed = st) := by
  rcases hr : (RemoveMembers env (buildTables st events).toRemove).2 with _ | e
  · rcases hi : (InsertMembers env (buildTables st events).toInsert).2 with _ | e
    · rw [handler_eq_of_ok env st events hr hi]
      refine ⟨buildTables_lastBlock st events, ?_, ?_⟩
      · rw [buildTables_lastBlock st events]
        exact le_watermarkCandidate st events
      · intro hemp
        have hw : watermarkCandidate st events = st := by
          unfold watermarkCandidate
          rw [hemp]
          rfl
        exact (buildTables_lastBlock st events).trans hw
    · rw [handler_eq_of_insertFail env st events e hr hi] at h
      exact Option.noConfusion h
  · rw [handler_eq_of_removeFail env st events e hr] at h
    exact Option.noConfusion h

/-- C5 witness: a batch holding only a removal event is processed
without error and leaves the watermark at its previous value 5. -/
theorem handler_watermark_monotone_witness :
    (handler envOK 5 removalOnlyBatch).error = none
    ∧ (handler envOK 5 removalOnlyBatch).lastBlockProcessed =
        watermarkCandidate 5 removalOnlyBatch
    ∧ 5 ≤ (handler envOK 5 removalOnlyBatch).lastBlockProcessed
    ∧ (handler envOK 5 removalOnlyBatch).lastBlockProcessed = 5 := by
  have h := handler_watermark_monotone envOK 5 removalOnlyBatch (by decide)
  exact ⟨by decide, h.1, h.2.1, h.2.2 (by decide)⟩

/-- C6: when a mutation call of the batch fails, the `handler` returns
exactly that failing call's error, the watermark is unchanged and no
`SetMetadata` call is made; conversely, when the `handler` returns no
error, every mutation call of the trace succeeded. -/
theorem handler_mutation_failure_aborts (env : Env) (st : Nat)
    (events : List RLNMemberRegistered) :
    (∀ op, (handler env st events).error = some op →
      env op = false ∧ op.isMutationCall = true
      ∧ (handler env st events).lastBlockProcessed = st
      ∧ ∀ n, Op.setMetadata n ∉ (handler env st events).trace)
    ∧ ((handler env st events).error = none →
      ∀ op ∈ (handler env st events).trace, op.isMutationCall = true → env op = true) := by
  rcases hr : (RemoveMembers env (buildTables st events).toRemove).2 with _ | e
  · rcases hi : (InsertMembers env (buildTables st events).toInsert).2 with _ | e
    · rw [handler_eq_of_ok env st events hr hi]
      refine ⟨fun op hop => Option.noConfusion hop, fun _ op hop hm => ?_⟩
      rcases List.mem_append.mp hop with hop1 | hop2
      · rcases List.mem_append.mp hop1 with hopr | hopi
        · exact removeLoop_env_of_none env _ hr op hopr hm
        · exact insertLoop_env_of_none env _ hi op hopi hm
      · rw [List.mem_singleton.mp hop2] at hm
        exact Bool.noConfusion hm
    · rw [handler_eq_of_insertFail env st events e hr hi]
      refine ⟨fun op hop => ?_, fun hnone => Option.noConfusion hnone⟩
      have hoe : e = op := Option.some.injEq e op ▸ congrArg (Option.getD · e) hop
      have hspec := insertLoop_error_spec env _ e hi
      refine ⟨hoe ▸ hspec.1, hoe ▸ hspec.2, rfl, fun n hmem => ?_⟩
      rcases List.mem_append.mp hmem with hmr | hmi
      · exact Bool.noConfusion (removeLoop_trace_isRemoval env _ _ hmr)
      · exact Bool.noConfusion (insertLoop_trace_isInsertion env _ _ hmi)
  · rw [handler_eq_of_removeFail env st events e hr]
    refine ⟨fun op hop => ?_, fun hnone => Option.noConfusion hnone⟩
    have hoe : e = op := Option.some.injEq e op ▸ congrArg (Option.getD · e) hop
    have hspec := removeLoop_error_spec env _ e hr
    refine ⟨hoe ▸ hspec.1, hoe ▸ hspec.2, rfl, fun n hmem => ?_⟩
    exact Bool.noConfusion (removeLoop_trace_isRemoval env _ _ hmem)

/-- C6 witness: with a failing `DeleteMembers`, the handler of a removal
batch returns that call as its error, keeps the watermark at 0 and never
calls `SetMetadata`. -/
theorem handler_mutation_failure_aborts_witness :
    (handler envFailDelete 0 removalOnlyBatch).error = some (Op.deleteMembers [1])
    ∧ envFailDelete (Op.deleteMembers [1]) = false
    ∧ (Op.deleteMembers [1]).isMutationCall = true
    ∧ (handler envFailDelete 0 removalOnlyBatch).lastBlockProcessed = 0
    ∧ Op.setMetadata 50 ∉ (handler envFailDelete 0 removalOnlyBatch).trace := by
  have h := (handler_mutation_failure_aborts envFailDelete 0 removalOnlyBatch).1
    (Op.deleteMembers [1]) (by decide)
  exact ⟨by decide, h.1, h.2.1, h.2.2.1, h.2.2.2 50⟩

/-- C7: when every tree mutation call succeeds, a failing `SetMetadata`
is non-fatal: the `handler` still returns no error, the watermark keeps
its advanced value, and the `SetMetadata` call was attempted. -/
theorem handler_metadata_failure_nonfatal (env : Env) (st : Nat)
    (events : List RLNMemberRegistered)
    (hdel : ∀ memberIndexes, env (Op.deleteMembers memberIndexes) = true)
    (hins : ∀ s cs, env (Op.insertMembers s cs) = true)
    (hupd : ∀ b, env (Op.updateLatestRoot b) = true)
    (hmeta : env (Op.setMetadata (watermarkCandidate st events)) = false) :
    (handler env st events).error = none
    ∧ (handler env st events).lastBlockProcessed = watermarkCandidate st events
    ∧ Op.setMetadata (watermarkCandidate st events) ∈ (handler env st events).trace := by
  have hr : (RemoveMembers env (buildTables st events).toRemove).2 = none :=
    removeLoop_none_of_deleteOK env _ hdel
  have hi : (InsertMembers env (buildTables st events).toInsert).2 = none :=
    insertLoop_none_of_OK env _ hins hupd
  rw [handler_eq_of_ok env st events hr hi]
  refine ⟨rfl, buildTables_lastBlock st events, ?_⟩
  rw [buildTables_lastBlock st events]
  exact List.mem_append_right _ (List.mem_singleton.mpr rfl)

/-- C7 witness: with an environment failing exactly the `SetMetadata`
calls, an insertion batch at block 50 is processed without error and the
watermark advances to 50 while the failed persistence was attempted. -/
theorem handler_metadata_failure_nonfatal_witness :
    envFailMeta (Op.setMetadata (watermarkCandidate 0 insertBatch50)) = false
    ∧ (handler envFailMeta 0 insertBatch50).error = none
    ∧ (handler envFailMeta 0 insertBatch50).lastBlockProcessed =
        watermarkCandidate 0 insertBatch50
    ∧ Op.setMetadata (watermarkCandidate 0 insertBatch50) ∈
        (handler envFailMeta 0 insertBatch50).trace := by
  have h := handler_metadata_failure_nonfatal envFailMeta 0 insertBatch50
    (fun _ => rfl) (fun _ _ => rfl) (fun _ => rfl) rfl
  exact ⟨rfl, h.1, h.2.1, h.2.2⟩

/-- C8 counterexample: a `Start` whose chain dial fails returns an error
but leaves the manager's state changed (`gm.cancel` was assigned before
the dial), so a retried `Start` — even with every external call
succeeding — is rejected with the "already started" error. -/
theorem Start_not_inert_counterexample :
    (Start startEnvDialFail gmConfigured).1 = some StartError.dialFailed
    ∧ (Start startEnvDialFail gmConfigured).2 ≠ gmConfigured
    ∧ (Start startEnvAllOK (Start startEnvDialFail gmConfigured).2).1 =
        some StartError.alreadyStarted :=
  ⟨by decide, by decide, by decide⟩

/-- C8 (amended): only the "already started" rejection leaves the state
unchanged; any error a `Start` on a not-yet-started manager returns is
produced after `gm.cancel` was assigned, so the manager is not inert and
every subsequent `Start` — under any environment — is rejected with the
"already started" error. -/
theorem Start_error_blocks_retry (env retryEnv : StartEnv) (gm : DynamicGroupManager) :
    (gm.cancel = true → Start env gm = (some StartError.alreadyStarted, gm))
    ∧ (gm.cancel = false → (Start env gm).1 ≠ none →
        ((Start env gm).2.cancel = true
        ∧ (Start retryEnv (Start env gm).2).1 = some StartError.alreadyStarted)) := by
  constructor
  · intro hc
    exact Start_alreadyStarted env gm hc
  · intro hc _
    have hset : (Start env gm).2.cancel = true := by
      simp only [Start, hc, Bool.false_eq_true, if_neg, ite_false]
      rw [startBody_cancel]
    refine ⟨hset, ?_⟩
    rw [Start_alreadyStarted retryEnv (Start env gm).2 hset]

/-- C8 witness: the failed-dial `Start` on a configured idle manager
errors, leaves the cancellation token set, and a retry with a fully
healthy environment is rejected with "already started". -/
theorem Start_error_blocks_retry_witness :
    gmConfigured.cancel = false
    ∧ (Start startEnvDialFail gmConfigured).1 ≠ none
    ∧ (Start startEnvDialFail gmConfigured).2.cancel = true
    ∧ (Start startEnvAllOK (Start startEnvDialFail gmConfigured).2).1 =
        some StartError.alreadyStarted := by
  have h := (Start_error_blocks_retry startEnvDialFail startEnvAllOK gmConfigured).2
    (by decide) (by decide)
  exact ⟨by decide, by decide, h.1, h.2⟩

/-- C9 counterexample: on a started manager whose tree flush fails,
`Stop` returns the flush error without ever calling the chain client
close or the background-task join. -/
theorem Stop_flush_failure_counterexample :
    Stop false gmStarted =
      (some StopError.flushFailed, [StopOp.cancelCall, StopOp.flush])
    ∧ StopOp.closeClient ∉ (Stop false gmStarted).2
    ∧ StopOp.wgWait ∉ (Stop false gmStarted).2 :=
  ⟨by decide, by decide, by decide⟩

/-- C9 (amended): when `Stop` runs after a successful `Start` and the
accumulator flush fails, it returns the flush error immediately: the
chain client connection is not closed and the background task is not
joined — those happen only on the flush-success path. -/
theorem Stop_flush_failure_returns_early (gm : DynamicGroupManager)
    (hc : gm.cancel = true) :
    Stop false gm = (some StopError.flushFailed, [StopOp.cancelCall, StopOp.flush])
    ∧ StopOp.closeClient ∉ (Stop false gm).2
    ∧ StopOp.wgWait ∉ (Stop false gm).2 := by
  have h : Stop false gm =
      (some StopError.flushFailed, [StopOp.cancelCall, StopOp.flush]) := by
    simp [Stop, hc]
  refine ⟨h, ?_, ?_⟩ <;> rw [h] <;> decide

/-- C9 witness: the started sample manager with a failing flush. -/
theorem Stop_flush_failure_returns_early_witness :
    gmStarted.cancel = true
    ∧ Stop false gmStarted =
        (some StopError.flushFailed, [StopOp.cancelCall, StopOp.flush])
    ∧ StopOp.closeClient ∉ (Stop false gmStarted).2
    ∧ StopOp.wgWait ∉ (Stop false gmStarted).2 := by
  have h := Stop_flush_failure_returns_early gmStarted (by decide)
  exact ⟨by decide, h.1, h.2.1, h.2.2⟩

/-- C10 counterexample: the event index 2^63 is not representable in a
signed 64-bit integer, yet the start index `InsertMembers` computes for
it equals the true index — the signed truncation alone does not change
the used value, refuting "differs for any value not representable in a
signed 64-bit integer". -/
theorem goStartIndex_int64_counterexample :
    ¬ fitsInInt64 (2 ^ 63)
    ∧ goStartIndex (2 ^ 63) = 2 ^ 63
    ∧ (InsertMembers envOK [(5, [⟨2 ^ 63, 1, 5, false⟩])]).1 =
        [Op.insertMembers (2 ^ 63) [1], Op.updateLatestRoot 5] :=
  ⟨by decide, by decide, by decide⟩

/-- C10 (amended): the start index `InsertMembers` hands to the
accumulator is the block's chosen event index truncated through a signed
64-bit integer and converted to an unsigned machine integer — net
effect: reduction mod 2^64, with no range check — so it equals the true
index exactly when the index is below 2^64 and differs from it for every
index not representable in an unsigned 64-bit integer (≥ 2^64). -/
theorem goStartIndex_truncates (n b c : Nat) :
    goStartIndex n = n % 2 ^ 64
    ∧ (n < 2 ^ 64 → goStartIndex n = n)
    ∧ (2 ^ 64 ≤ n → goStartIndex n ≠ n)
    ∧ (InsertMembers envOK [(b, [⟨n, c, b, false⟩])]).1 =
        [Op.insertMembers (n % 2 ^ 64) [bigIntToBytes32 c], Op.updateLatestRoot b] := by
  refine ⟨goStartIndex_mod n, ?_, ?_, ?_⟩
  · intro hlt
    rw [goStartIndex_mod, Nat.mod_eq_of_lt hlt]
  · intro hge
    rw [goStartIndex_mod]
    have hlt : n % 2 ^ 64 < 2 ^ 64 := Nat.mod_lt _ (by norm_num)
    omega
  · simp [InsertMembers, insertLoop, envOK, goStartIndex_mod]

/-- C10 witness: at index 2^64 the start index used is 0, different from
the true index. -/
theorem goStartIndex_truncates_witness :
    (2 : Nat) ^ 64 ≤ 2 ^ 64
    ∧ goStartIndex (2 ^ 64) = 2 ^ 64 % 2 ^ 64
    ∧ goStartIndex (2 ^ 64) ≠ 2 ^ 64
    ∧ (InsertMembers envOK [(3, [⟨2 ^ 64, 2, 3, false⟩])]).1 =
        [Op.insertMembers (2 ^ 64 % 2 ^ 64) [bigIntToBytes32 2], Op.updateLatestRoot 3] :=
  ⟨Nat.le_refl _, (goStartIndex_truncates (2 ^ 64) 3 2).1,
    (goStartIndex_truncates (2 ^ 64) 3 2).2.2.1 (Nat.le_refl _),
    (goStartIndex_truncates (2 ^ 64) 3 2).2.2.2⟩

end GoWaku
